import Mathlib

/-!
Verification of the `AggressiveTargetBot` decision engine of the cycles
repository.  The bot logic lives in `src/client/client_rorosaga.cpp` and a
near-identical second variant; both are embedded below, each in its own
namespace.  The game API (`api.h` / `utils.h`: `GameState`, `Player`,
`Direction`, `getDirectionVector`, grid queries) is not part of the
repository sources, so it is modelled from the spec: grid containment and
cell emptiness are kept as abstract Boolean queries carried by the game
state, which is exactly the interface the bot code consumes.
-/

/-- A grid position: an integer pair, compared by equality. -/
structure Pos where
  x : Int
  y : Int
deriving DecidableEq, Repr

instance : Add Pos := ⟨fun a b => ⟨a.x + b.x, a.y + b.y⟩⟩

/-- The four movement directions, a closed enumeration. -/
inductive Direction where
  | north
  | east
  | south
  | west
deriving DecidableEq, Repr

/-- Modelled from the spec: `getDirectionVector` of `utils.h` is not under
`src/`; each direction maps to a fixed unit displacement, with increasing
`y` pointing southward as the spec's end-to-end scenario fixes it. -/
def getDirectionVector : Direction → Pos
  | Direction.north => ⟨0, -1⟩
  | Direction.east => ⟨1, 0⟩
  | Direction.south => ⟨0, 1⟩
  | Direction.west => ⟨-1, 0⟩

/-- A player: stable id, display name, current position. -/
structure Player where
  id : Nat
  name : String
  position : Pos
deriving DecidableEq, Repr

/-- Modelled from the spec: `GameState` of `api.h` is not under `src/`.
A snapshot carries the player list and the two occupancy queries the bot
uses, `isInsideGrid` and `isCellEmpty`, kept abstract as Boolean oracles
(the bot only ever calls them, never inspects the grid otherwise). -/
structure GameState where
  isInsideGrid : Pos → Bool
  isCellEmpty : Pos → Bool
  players : List Player

/-- The fixed direction scan order `{north, east, south, west}` used by
every loop of the bot. -/
def scanOrder : List Direction :=
  [Direction.north, Direction.east, Direction.south, Direction.west]

/-- Index of a direction in the fixed scan order. -/
def scanIdx : Direction → Nat
  | Direction.north => 0
  | Direction.east => 1
  | Direction.south => 2
  | Direction.west => 3

namespace ClientRorosaga

/-- The guard `state.isInsideGrid(p) && state.isCellEmpty(p)` that the
source checks before every move or expansion. -/
def validCell (state : GameState) (p : Pos) : Bool :=
  state.isInsideGrid p && state.isCellEmpty p

/-- `calculateDistance`: Manhattan distance. -/
def calculateDistance (a b : Pos) : Int :=
  |a.x - b.x| + |a.y - b.y|

/-- `predictOpponentMove`: first in-grid empty neighbour in scan order,
else the opponent's current position.  (The source's catch-all handler is
unreachable in this pure model.) -/
def predictOpponentMove (state : GameState) (opponent : Player) : Pos :=
  match scanOrder.find? (fun d => validCell state (opponent.position + getDirectionVector d)) with
  | some d => opponent.position + getDirectionVector d
  | none => opponent.position

/-- One pop of the flood-fill loop: scan the four neighbours of `current`,
inserting each in-grid empty unvisited one into the visited set and the
back of the queue.  The accumulator is `(visited, queue)`. -/
def expandStep (state : GameState) (current : Pos) (ds : List Direction)
    (acc : List Pos × List Pos) : List Pos × List Pos :=
  ds.foldl
    (fun acc d =>
      let neighbor := current + getDirectionVector d
      if validCell state neighbor ∧ neighbor ∉ acc.1 then
        (neighbor :: acc.1, acc.2 ++ [neighbor])
      else acc)
    acc

/-- The flood-fill loop of `calculateAvailableSpace`, returning the list of
popped cells in pop order.  `fuel` is `20 - space`: the C++ loop runs while
the queue is nonempty and `space < 20`, incrementing `space` at each pop. -/
def bfsVisit (state : GameState) : Nat → List Pos → List Pos → List Pos
  | 0, _, _ => []
  | _ + 1, [], _ => []
  | fuel + 1, current :: rest, visited =>
    let acc := expandStep state current scanOrder (visited, rest)
    current :: bfsVisit state fuel acc.2 acc.1

/-- `calculateAvailableSpace`: breadth-first flood fill from `pos`, capped
at 20 popped cells; returns the pop count. -/
def calculateAvailableSpace (state : GameState) (pos : Pos) : Nat :=
  (bfsVisit state 20 [pos] [pos]).length

/-- `isInTightSpot`: available space from the bot's own position below 5. -/
def isInTightSpot (state : GameState) (myPlayer : Player) : Bool :=
  decide (calculateAvailableSpace state myPlayer.position < 5)

/-- `calculateSafety`: −10 per blocked or out-of-grid neighbour. -/
def calculateSafety (state : GameState) (pos : Pos) : Int :=
  scanOrder.foldl
    (fun s d => if validCell state (pos + getDirectionVector d) then s else s - 10) 0

/-- `calculateTrappingPotential`: +5 per blocked or out-of-grid neighbour
of the predicted opponent position; the candidate position `pos` is
accepted but never read, exactly as in the source. -/
def calculateTrappingPotential (state : GameState) (pos predictedOpponentPos : Pos) : Int :=
  scanOrder.foldl
    (fun s d =>
      if validCell state (predictedOpponentPos + getDirectionVector d) then s else s + 5) 0

/-- The candidate list built inside `decideBestMove`: every direction whose
resulting cell is in-grid and empty, paired with its total score, in scan
order. -/
def rankedMoves (state : GameState) (myPlayer : Player) (target predictedOpponentPos : Pos) :
    List (Direction × Int) :=
  scanOrder.filterMap
    (fun d =>
      let newPos := myPlayer.position + getDirectionVector d
      if validCell state newPos then
        some (d, calculateSafety state newPos + (-calculateDistance newPos target) +
          calculateTrappingPotential state newPos predictedOpponentPos +
          (calculateAvailableSpace state newPos : Int))
      else none)

/-- `randomDirection`: deterministic first in-grid empty direction in scan
order, defaulting to north. -/
def randomDirection (state : GameState) (myPlayer : Player) : Direction :=
  (scanOrder.find? (fun d => validCell state (myPlayer.position + getDirectionVector d))).getD
    Direction.north

/-- `decideBestMove`: sort the candidates by descending total score and
take the front, falling back to `randomDirection` when no candidate
survives.  The source sorts with `std::sort` and a strict `>` comparator;
the C++ standard leaves the relative order of tied elements unspecified,
and this executable model fixes one admissible choice (a stable descending
sort).  The tie question is treated separately and relationally below. -/
def decideBestMove (state : GameState) (myPlayer : Player) (target predictedOpponentPos : Pos) :
    Direction :=
  match (rankedMoves state myPlayer target predictedOpponentPos).mergeSort
      (fun a b => decide (b.2 ≤ a.2)) with
  | [] => randomDirection state myPlayer
  | m :: _ => m.1

/-- `updateState` of `client_rorosaga.cpp`: scan the snapshot's players for
the bot's name; the first match becomes the new self, otherwise a
`BotException` is thrown (rethrown past the generic handler, ending the
run loop) and the stored self is never assigned. -/
def updateState (state : GameState) (name : String) : Except String Player :=
  match state.players.find? (fun p => p.name == name) with
  | some p => Except.ok p
  | none => Except.error "Bot player state not found in GameState."

end ClientRorosaga

namespace Part000

/-- The same guard in the second, unnamed variant of the bot. -/
def validCell (state : GameState) (p : Pos) : Bool :=
  state.isInsideGrid p && state.isCellEmpty p

/-- `calculateDistance` of the unnamed variant. -/
def calculateDistance (a b : Pos) : Int :=
  |a.x - b.x| + |a.y - b.y|

/-- `predictOpponentMove` of the unnamed variant: first in-grid empty
neighbour in scan order, else the opponent's current position. -/
def predictOpponentMove (state : GameState) (opponent : Player) : Pos :=
  match scanOrder.find? (fun d => validCell state (opponent.position + getDirectionVector d)) with
  | some d => opponent.position + getDirectionVector d
  | none => opponent.position

/-- One pop of the unnamed variant's flood-fill loop. -/
def expandStep (state : GameState) (current : Pos) (ds : List Direction)
    (acc : List Pos × List Pos) : List Pos × List Pos :=
  ds.foldl
    (fun acc d =>
      let neighbor := current + getDirectionVector d
      if validCell state neighbor ∧ neighbor ∉ acc.1 then
        (neighbor :: acc.1, acc.2 ++ [neighbor])
      else acc)
    acc

/-- The unnamed variant's flood-fill loop, popped cells in pop order. -/
def bfsVisit (state : GameState) : Nat → List Pos → List Pos → List Pos
  | 0, _, _ => []
  | _ + 1, [], _ => []
  | fuel + 1, current :: rest, visited =>
    let acc := expandStep state current scanOrder (visited, rest)
    current :: bfsVisit state fuel acc.2 acc.1

/-- `calculateAvailableSpace` of the unnamed variant. -/
def calculateAvailableSpace (state : GameState) (pos : Pos) : Nat :=
  (bfsVisit state 20 [pos] [pos]).length

/-- `isInTightSpot` of the unnamed variant. -/
def isInTightSpot (state : GameState) (myPlayer : Player) : Bool :=
  decide (calculateAvailableSpace state myPlayer.position < 5)

/-- `calculateSafety` of the unnamed variant. -/
def calculateSafety (state : GameState) (pos : Pos) : Int :=
  scanOrder.foldl
    (fun s d => if validCell state (pos + getDirectionVector d) then s else s - 10) 0

/-- `calculateTrappingPotential` of the unnamed variant; `pos` is again
accepted but never read. -/
def calculateTrappingPotential (state : GameState) (pos predictedOpponentPos : Pos) : Int :=
  scanOrder.foldl
    (fun s d =>
      if validCell state (predictedOpponentPos + getDirectionVector d) then s else s + 5) 0

/-- The candidate list built inside the unnamed variant's `decideBestMove`. -/
def rankedMoves (state : GameState) (myPlayer : Player) (target predictedOpponentPos : Pos) :
    List (Direction × Int) :=
  scanOrder.filterMap
    (fun d =>
      let newPos := myPlayer.position + getDirectionVector d
      if validCell state newPos then
        some (d, calculateSafety state newPos + (-calculateDistance newPos target) +
          calculateTrappingPotential state newPos predictedOpponentPos +
          (calculateAvailableSpace state newPos : Int))
      else none)

/-- `randomDirection` of the unnamed variant. -/
def randomDirection (state : GameState) (myPlayer : Player) : Direction :=
  (scanOrder.find? (fun d => validCell state (myPlayer.position + getDirectionVector d))).getD
    Direction.north

/-- `decideBestMove` of the unnamed variant; the same `std::sort` call is
modelled by the same fixed admissible tie order. -/
def decideBestMove (state : GameState) (myPlayer : Player) (target predictedOpponentPos : Pos) :
    Direction :=
  match (rankedMoves state myPlayer target predictedOpponentPos).mergeSort
      (fun a b => decide (b.2 ≤ a.2)) with
  | [] => randomDirection state myPlayer
  | m :: _ => m.1

/-- `updateState` of the unnamed variant: scan the snapshot's players for
the bot's name, take the first match as the new self, and silently keep
the previous self when no player matches. -/
def updateState (state : GameState) (name : String) (prev : Player) : Player :=
  match state.players.find? (fun p => p.name == name) with
  | some p => p
  | none => prev

end Part000

/-- A list is a valid output of the source's `std::sort` call on `input`
when it is a permutation of `input` that is non-increasing in the total
score, which is all the C++ standard guarantees for `std::sort` with the
strict comparator `a.second > b.second` (the order of tied elements is
unspecified). -/
def IsSortOutput (input output : List (Direction × Int)) : Prop :=
  input.Perm output ∧ output.Pairwise (fun a b => b.2 ≤ a.2)

/-- The in-grid empty neighbours of `origin`, in scan order. -/
def validNeighbors (state : GameState) (origin : Pos) : List Pos :=
  (scanOrder.map (fun d => origin + getDirectionVector d)).filter
    (fun n => ClientRorosaga.validCell state n)

/-- A fully empty 30×30 grid with no players, used for concrete checks. -/
def openState : GameState :=
  { isInsideGrid := fun p => decide (0 ≤ p.x ∧ p.x < 30 ∧ 0 ≤ p.y ∧ p.y < 30)
    isCellEmpty := fun _ => true
    players := [] }

/-- A bot standing at (5, 5) in the open grid. -/
def openPlayer : Player := ⟨0, "rorosaga", ⟨5, 5⟩⟩

/-- A 4-cell corridor: exactly the cells (0,0)..(3,0) are in-grid, all
empty. -/
def corridorState4 : GameState :=
  { isInsideGrid := fun p => decide (0 ≤ p.x ∧ p.x < 4 ∧ p.y = 0)
    isCellEmpty := fun _ => true
    players := [] }

/-- A 5-cell corridor: exactly the cells (0,0)..(4,0) are in-grid, all
empty. -/
def corridorState5 : GameState :=
  { isInsideGrid := fun p => decide (0 ≤ p.x ∧ p.x < 5 ∧ p.y = 0)
    isCellEmpty := fun _ => true
    players := [] }

/-- A player standing at the west end of a corridor. -/
def corridorPlayer : Player := ⟨0, "rorosaga", ⟨0, 0⟩⟩

/-- A snapshot whose only player is named "bob", used to exercise the
self-not-found path of `updateState`. -/
def strangerState : GameState :=
  { isInsideGrid := fun _ => true
    isCellEmpty := fun _ => true
    players := [⟨7, "bob", ⟨1, 1⟩⟩] }

theorem Pos.add_def (a b : Pos) : a + b = ⟨a.x + b.x, a.y + b.y⟩ := rfl

theorem mem_scanOrder (d : Direction) : d ∈ scanOrder := by
  cases d <;> decide

theorem scanOrder_nodup : scanOrder.Nodup := by decide

theorem pos_add_dir_ne (p : Pos) (d : Direction) : p + getDirectionVector d ≠ p := by
  intro h
  have hx := congrArg Pos.x h
  have hy := congrArg Pos.y h
  cases d <;> simp [getDirectionVector, Pos.add_def] at hx hy

theorem add_dirvec_inj (p : Pos) {d d' : Direction}
    (h : p + getDirectionVector d = p + getDirectionVector d') : d = d' := by
  have hx := congrArg Pos.x h
  have hy := congrArg Pos.y h
  cases d <;> cases d' <;> first
    | rfl
    | (exfalso; simp [getDirectionVector, Pos.add_def] at hx hy)

theorem expandStep_cons (state : GameState) (current : Pos) (d : Direction)
    (ds : List Direction) (acc : List Pos × List Pos) :
    ClientRorosaga.expandStep state current (d :: ds) acc =
      ClientRorosaga.expandStep state current ds
        (if ClientRorosaga.validCell state (current + getDirectionVector d) ∧
            (current + getDirectionVector d) ∉ acc.1 then
          ((current + getDirectionVector d) :: acc.1, acc.2 ++ [current + getDirectionVector d])
        else acc) := rfl

/-- Structure of one expansion pop: the queue grows by a block `extra` of
fresh cells, the visited set becomes `extra ∪ visited` as a set, and every
fresh cell is in-grid, empty, and new. -/
theorem expandStep_spec (state : GameState) (current : Pos) :
    ∀ (ds : List Direction) (v q : List Pos),
      ∃ extra : List Pos,
        (ClientRorosaga.expandStep state current ds (v, q)).2 = q ++ extra ∧
        (∀ x, x ∈ (ClientRorosaga.expandStep state current ds (v, q)).1 ↔ x ∈ extra ∨ x ∈ v) ∧
        extra.Nodup ∧
        (∀ x ∈ extra, x ∉ v ∧ ClientRorosaga.validCell state x = true) := by
  intro ds
  induction ds with
  | nil =>
    intro v q
    exact ⟨[], by simp [ClientRorosaga.expandStep]⟩
  | cons d ds ih =>
    intro v q
    rw [expandStep_cons]
    by_cases hc : ClientRorosaga.validCell state (current + getDirectionVector d) ∧
        (current + getDirectionVector d) ∉ v
    · rw [if_pos hc]
      obtain ⟨extra, hq, hv, hnd, hfresh⟩ :=
        ih ((current + getDirectionVector d) :: v) (q ++ [current + getDirectionVector d])
      refine ⟨(current + getDirectionVector d) :: extra, ?_, ?_, ?_, ?_⟩
      · rw [hq]; simp
      · intro x
        rw [hv]
        simp only [List.mem_cons]
        tauto
      · refine List.nodup_cons.mpr ⟨?_, hnd⟩
        intro hmem
        exact ((hfresh _ hmem).1) (List.mem_cons_self _ _)
      · intro x hx
        rcases List.mem_cons.mp hx with rfl | hx'
        · exact ⟨hc.2, hc.1⟩
        · have := hfresh _ hx'
          exact ⟨fun hxv => this.1 (List.mem_cons_of_mem _ hxv), this.2⟩
    · rw [if_neg hc]
      exact ih v q

/-- Every popped cell either was already queued or was not yet visited. -/
theorem bfsVisit_mem (state : GameState) :
    ∀ (fuel : Nat) (q v : List Pos), ∀ x ∈ ClientRorosaga.bfsVisit state fuel q v,
      x ∈ q ∨ x ∉ v := by
  intro fuel
  induction fuel with
  | zero => intro q v x hx; simp [ClientRorosaga.bfsVisit] at hx
  | succ n ih =>
    intro q v x hx
    cases q with
    | nil => simp [ClientRorosaga.bfsVisit] at hx
    | cons current rest =>
      obtain ⟨extra, hq, hv, _, hfresh⟩ := expandStep_spec state current scanOrder v rest
      simp only [ClientRorosaga.bfsVisit, List.mem_cons] at hx
      rcases hx with rfl | hx'
      · exact Or.inl (List.mem_cons_self _ _)
      · rcases ih _ _ _ hx' with hq' | hv'
        · rw [hq] at hq'
          rcases List.mem_append.mp hq' with hr | he
          · exact Or.inl (List.mem_cons_of_mem _ hr)
          · exact Or.inr (hfresh _ he).1
        · refine Or.inr (fun hxv => hv' ?_)
          exact (hv x).mpr (Or.inr hxv)

/-- The popped cells are pairwise distinct: no cell is ever revisited. -/
theorem bfsVisit_nodup (state : GameState) :
    ∀ (fuel : Nat) (q v : List Pos), q.Nodup → (∀ x ∈ q, x ∈ v) →
      (ClientRorosaga.bfsVisit state fuel q v).Nodup := by
  intro fuel
  induction fuel with
  | zero => intro q v _ _; simp [ClientRorosaga.bfsVisit]
  | succ n ih =>
    intro q v hnd hsub
    cases q with
    | nil => simp [ClientRorosaga.bfsVisit]
    | cons current rest =>
      obtain ⟨extra, hq, hv, hend, hfresh⟩ := expandStep_spec state current scanOrder v rest
      simp only [ClientRorosaga.bfsVisit]
      refine List.nodup_cons.mpr ⟨?_, ?_⟩
      · intro hmem
        rcases bfsVisit_mem state n _ _ _ hmem with hq' | hv'
        · rw [hq] at hq'
          rcases List.mem_append.mp hq' with hr | he
          · exact (List.nodup_cons.mp hnd).1 hr
          · exact (hfresh _ he).1 (hsub _ (List.mem_cons_self _ _))
        · exact hv' ((hv current).mpr (Or.inr (hsub _ (List.mem_cons_self _ _))))
      · refine ih _ _ ?_ ?_
        · rw [hq]
          refine List.Nodup.append (List.nodup_cons.mp hnd).2 hend ?_
          intro x hxr hxe
          exact (hfresh _ hxe).1 (hsub _ (List.mem_cons_of_mem _ hxr))
        · intro x hx
          rw [hq] at hx
          rcases List.mem_append.mp hx with hr | he
          · exact (hv x).mpr (Or.inr (hsub _ (List.mem_cons_of_mem _ hr)))
          · exact (hv x).mpr (Or.inl he)

/-- The pop count never exceeds the fuel (the 20-cell cap). -/
theorem bfsVisit_length_le (state : GameState) :
    ∀ (fuel : Nat) (q v : List Pos),
      (ClientRorosaga.bfsVisit state fuel q v).length ≤ fuel := by
  intro fuel
  induction fuel with
  | zero => intro q v; simp [ClientRorosaga.bfsVisit]
  | succ n ih =>
    intro q v
    cases q with
    | nil => simp [ClientRorosaga.bfsVisit]
    | cons current rest =>
      simp only [ClientRorosaga.bfsVisit, List.length_cons]
      exact Nat.succ_le_succ (ih _ _)

/-- As long as fuel and queue last, the loop keeps popping: the pop count
is at least the smaller of the fuel and the initial queue length. -/
theorem bfsVisit_length_ge (state : GameState) :
    ∀ (fuel : Nat) (q v : List Pos),
      min fuel q.length ≤ (ClientRorosaga.bfsVisit state fuel q v).length := by
  intro fuel
  induction fuel with
  | zero => intro q v; simp
  | succ n ih =>
    intro q v
    cases q with
    | nil => simp
    | cons current rest =>
      obtain ⟨extra, hq, -, -, -⟩ := expandStep_spec state current scanOrder v rest
      simp only [ClientRorosaga.bfsVisit, List.length_cons]
      have h1 := ih (ClientRorosaga.expandStep state current scanOrder (v, rest)).2
        (ClientRorosaga.expandStep state current scanOrder (v, rest)).1
      have h2 : rest.length ≤ (ClientRorosaga.expandStep state current scanOrder (v, rest)).2.length := by
        rw [hq]
        simp
      omega

/-- With fresh pairwise-distinct neighbours, one expansion pop appends to
the queue exactly the in-grid empty neighbours, in scan order. -/
theorem expandStep_fresh (state : GameState) (current : Pos) :
    ∀ (ds : List Direction) (v q : List Pos), ds.Nodup →
      (∀ d ∈ ds, (current + getDirectionVector d) ∉ v) →
      (ClientRorosaga.expandStep state current ds (v, q)).2 =
        q ++ (ds.map (fun d => current + getDirectionVector d)).filter
          (fun n => ClientRorosaga.validCell state n) := by
  intro ds
  induction ds with
  | nil => intro v q _ _; simp [ClientRorosaga.expandStep]
  | cons d ds ih =>
    intro v q hnd hfresh
    rw [expandStep_cons]
    by_cases hval : ClientRorosaga.validCell state (current + getDirectionVector d) = true
    · rw [if_pos ⟨hval, hfresh d (List.mem_cons_self _ _)⟩]
      have hstep := ih ((current + getDirectionVector d) :: v)
        (q ++ [current + getDirectionVector d]) (List.nodup_cons.mp hnd).2 ?_
      · rw [hstep]
        simp [hval]
      · intro d' hd'
        simp only [List.mem_cons, not_or]
        refine ⟨?_, hfresh d' (List.mem_cons_of_mem _ hd')⟩
        intro heq
        exact (List.nodup_cons.mp hnd).1 (add_dirvec_inj current heq ▸ hd')
    · rw [if_neg (fun hc => hval hc.1)]
      have hstep := ih v q (List.nodup_cons.mp hnd).2
        (fun d' hd' => hfresh d' (List.mem_cons_of_mem _ hd'))
      rw [hstep]
      simp [hval]

/-- The two variants' flood-fill loops agree pointwise. -/
theorem bfsVisit_eq (state : GameState) :
    ∀ (fuel : Nat) (q v : List Pos),
      ClientRorosaga.bfsVisit state fuel q v = Part000.bfsVisit state fuel q v := by
  intro fuel
  induction fuel with
  | zero => intro q v; rfl
  | succ n ih =>
    intro q v
    cases q with
    | nil => rfl
    | cons c rest =>
      simp only [ClientRorosaga.bfsVisit, Part000.bfsVisit]
      rw [ih]
      rfl

/-- The two variants' flood-fill counters agree. -/
theorem calculateAvailableSpace_eq :
    @ClientRorosaga.calculateAvailableSpace = @Part000.calculateAvailableSpace := by
  funext state pos
  simp only [ClientRorosaga.calculateAvailableSpace, Part000.calculateAvailableSpace, bfsVisit_eq]

/-- The two variants build identical candidate lists. -/
theorem rankedMoves_eq : @ClientRorosaga.rankedMoves = @Part000.rankedMoves := by
  funext state myPlayer target predOpp
  simp only [ClientRorosaga.rankedMoves, Part000.rankedMoves,
    ClientRorosaga.calculateAvailableSpace, Part000.calculateAvailableSpace, bfsVisit_eq]
  rfl

/-- C6: the trapping sub-score is independent of its first argument (the
candidate position): it is computed solely from the predicted opponent
position's surroundings, so it is identical across all of the bot's
candidate moves in a tick. -/
theorem calculateTrappingPotential_ignores_candidate (state : GameState)
    (p1 p2 predictedOpponentPos : Pos) :
    ClientRorosaga.calculateTrappingPotential state p1 predictedOpponentPos =
      ClientRorosaga.calculateTrappingPotential state p2 predictedOpponentPos := rfl

/-- C9: the seven decision functions of the `client_rorosaga.cpp` variant
are extensionally equal to the same-named functions of the unnamed
variant. -/
theorem variants_extensionally_equal :
    @ClientRorosaga.calculateDistance = @Part000.calculateDistance ∧
    @ClientRorosaga.predictOpponentMove = @Part000.predictOpponentMove ∧
    @ClientRorosaga.calculateAvailableSpace = @Part000.calculateAvailableSpace ∧
    @ClientRorosaga.calculateSafety = @Part000.calculateSafety ∧
    @ClientRorosaga.calculateTrappingPotential = @Part000.calculateTrappingPotential ∧
    @ClientRorosaga.randomDirection = @Part000.randomDirection ∧
    @ClientRorosaga.decideBestMove = @Part000.decideBestMove := by
  refine ⟨rfl, rfl, calculateAvailableSpace_eq, rfl, rfl, rfl, ?_⟩
  funext state myPlayer target predOpp
  simp only [ClientRorosaga.decideBestMove, Part000.decideBestMove, rankedMoves_eq]
  rfl

/-- C8: on a snapshot containing no player with the bot's name, the
`client_rorosaga.cpp` variant's `updateState` fails with the documented
terminating error (never assigning a new self), while the unnamed
variant's `updateState` completes silently, keeping the previous tick's
self. -/
theorem updateState_self_not_found (state : GameState) (name : String) (prev : Player)
    (h : ∀ p ∈ state.players, p.name ≠ name) :
    ClientRorosaga.updateState state name =
      Except.error "Bot player state not found in GameState." ∧
    Part000.updateState state name prev = prev := by
  have hf : state.players.find? (fun p => p.name == name) = none := by
    apply List.find?_eq_none.mpr
    intro p hp
    simp [h p hp]
  constructor
  · simp [ClientRorosaga.updateState, hf]
  · simp [Part000.updateState, hf]

/-- Witness for C8: a snapshot whose only player is "bob" while the bot is
named "rorosaga". -/
theorem updateState_self_not_found_witness :
    ClientRorosaga.updateState strangerState "rorosaga" =
      Except.error "Bot player state not found in GameState." ∧
    Part000.updateState strangerState "rorosaga" openPlayer = openPlayer :=
  updateState_self_not_found strangerState "rorosaga" openPlayer (by decide)

/-- C5: escape mode triggers exactly when the flood-fill space from the
bot's own position is strictly below 5; space exactly 4 triggers it and
space exactly 5 does not. -/
theorem isInTightSpot_iff (state : GameState) (myPlayer : Player) :
    (ClientRorosaga.isInTightSpot state myPlayer = true ↔
      ClientRorosaga.calculateAvailableSpace state myPlayer.position < 5) ∧
    (ClientRorosaga.calculateAvailableSpace state myPlayer.position = 4 →
      ClientRorosaga.isInTightSpot state myPlayer = true) ∧
    (ClientRorosaga.calculateAvailableSpace state myPlayer.position = 5 →
      ClientRorosaga.isInTightSpot state myPlayer = false) := by
  refine ⟨by simp [ClientRorosaga.isInTightSpot], ?_, ?_⟩ <;>
    intro h <;> simp [ClientRorosaga.isInTightSpot, h]

/-- Witness for C5: in a 4-cell corridor the reachable space is exactly 4
and escape mode triggers; in a 5-cell corridor it is exactly 5 and escape
mode does not trigger. -/
theorem isInTightSpot_iff_witness :
    ClientRorosaga.isInTightSpot corridorState4 corridorPlayer = true ∧
    ClientRorosaga.isInTightSpot corridorState5 corridorPlayer = false :=
  ⟨(isInTightSpot_iff corridorState4 corridorPlayer).2.1 (by decide),
   (isInTightSpot_iff corridorState5 corridorPlayer).2.2 (by decide)⟩

/-- Every candidate in `rankedMoves` records a direction whose resulting
cell is in-grid and empty. -/
theorem rankedMoves_mem_valid (state : GameState) (myPlayer : Player)
    (target predictedOpponentPos : Pos) {m : Direction × Int}
    (hm : m ∈ ClientRorosaga.rankedMoves state myPlayer target predictedOpponentPos) :
    ClientRorosaga.validCell state (myPlayer.position + getDirectionVector m.1) = true := by
  simp only [ClientRorosaga.rankedMoves, List.mem_filterMap] at hm
  obtain ⟨d, -, hd⟩ := hm
  by_cases h : ClientRorosaga.validCell state (myPlayer.position + getDirectionVector d) = true
  · rw [if_pos h] at hd
    obtain rfl := (Option.some.injEq _ _).mp hd
    exact h
  · rw [if_neg h] at hd
    cases hd

/-- A direction with a legal resulting cell contributes its candidate to
`rankedMoves`. -/
theorem rankedMoves_mem_of_valid (state : GameState) (myPlayer : Player)
    (target predictedOpponentPos : Pos) (d : Direction)
    (h : ClientRorosaga.validCell state (myPlayer.position + getDirectionVector d) = true) :
    ∃ s : Int, (d, s) ∈ ClientRorosaga.rankedMoves state myPlayer target predictedOpponentPos := by
  refine ⟨ClientRorosaga.calculateSafety state (myPlayer.position + getDirectionVector d) +
    (-ClientRorosaga.calculateDistance (myPlayer.position + getDirectionVector d) target) +
    ClientRorosaga.calculateTrappingPotential state (myPlayer.position + getDirectionVector d)
      predictedOpponentPos +
    (ClientRorosaga.calculateAvailableSpace state (myPlayer.position + getDirectionVector d) : Int),
    List.mem_filterMap.mpr ⟨d, mem_scanOrder d, ?_⟩⟩
  simp only
  rw [if_pos h]

/-- C1: whenever at least one direction leads to an in-grid empty cell,
`decideBestMove` returns a direction whose resulting cell is in-grid and
empty. -/
theorem decideBestMove_legal (state : GameState) (myPlayer : Player)
    (target predictedOpponentPos : Pos)
    (h : ∃ d : Direction,
      ClientRorosaga.validCell state (myPlayer.position + getDirectionVector d) = true) :
    ClientRorosaga.validCell state
      (myPlayer.position + getDirectionVector
        (ClientRorosaga.decideBestMove state myPlayer target predictedOpponentPos)) = true := by
  obtain ⟨d, hd⟩ := h
  obtain ⟨s, hs⟩ := rankedMoves_mem_of_valid state myPlayer target predictedOpponentPos d hd
  have hmem : (d, s) ∈ (ClientRorosaga.rankedMoves state myPlayer target
      predictedOpponentPos).mergeSort (fun a b => decide (b.2 ≤ a.2)) :=
    (List.mergeSort_perm _ _).mem_iff.mpr hs
  rcases hsort : (ClientRorosaga.rankedMoves state myPlayer target
      predictedOpponentPos).mergeSort (fun a b => decide (b.2 ≤ a.2)) with _ | ⟨m, rest⟩
  · rw [hsort] at hmem
    cases hmem
  · have hm : m ∈ ClientRorosaga.rankedMoves state myPlayer target predictedOpponentPos :=
      (List.mergeSort_perm _ _).subset (hsort ▸ List.mem_cons_self m rest)
    have hres : ClientRorosaga.decideBestMove state myPlayer target predictedOpponentPos = m.1 := by
      simp only [ClientRorosaga.decideBestMove, hsort]
    rw [hres]
    exact rankedMoves_mem_valid state myPlayer target predictedOpponentPos hm

/-- Witness for C1: in the open grid every direction is legal and the
returned move's cell is in-grid and empty. -/
theorem decideBestMove_legal_witness :
    ClientRorosaga.validCell openState
      (openPlayer.position + getDirectionVector
        (ClientRorosaga.decideBestMove openState openPlayer ⟨6, 4⟩ ⟨20, 20⟩)) = true :=
  decideBestMove_legal openState openPlayer ⟨6, 4⟩ ⟨20, 20⟩ ⟨Direction.north, by decide⟩

/-- C7: the escape-mode/fallback chooser is deterministic: it returns the
first direction in scan order whose resulting cell is in-grid and empty,
and returns north when no direction qualifies. -/
theorem randomDirection_first_valid (state : GameState) (myPlayer : Player) :
    (ClientRorosaga.validCell state
        (myPlayer.position +
          getDirectionVector (ClientRorosaga.randomDirection state myPlayer)) = true ∧
      ∀ d : Direction, scanIdx d < scanIdx (ClientRorosaga.randomDirection state myPlayer) →
        ClientRorosaga.validCell state (myPlayer.position + getDirectionVector d) = false) ∨
    (ClientRorosaga.randomDirection state myPlayer = Direction.north ∧
      ∀ d : Direction,
        ClientRorosaga.validCell state (myPlayer.position + getDirectionVector d) = false) := by
  cases hN : ClientRorosaga.validCell state
      (myPlayer.position + getDirectionVector Direction.north) with
  | true =>
    have hres : ClientRorosaga.randomDirection state myPlayer = Direction.north := by
      simp [ClientRorosaga.randomDirection, scanOrder, List.find?, hN]
    rw [hres]
    exact Or.inl ⟨hN, fun d hd => by cases d <;> simp [scanIdx] at hd⟩
  | false =>
    cases hE : ClientRorosaga.validCell state
        (myPlayer.position + getDirectionVector Direction.east) with
    | true =>
      have hres : ClientRorosaga.randomDirection state myPlayer = Direction.east := by
        simp [ClientRorosaga.randomDirection, scanOrder, List.find?, hN, hE]
      rw [hres]
      exact Or.inl ⟨hE, fun d hd => by cases d <;> simp [scanIdx] at hd <;> exact hN⟩
    | false =>
      cases hS : ClientRorosaga.validCell state
          (myPlayer.position + getDirectionVector Direction.south) with
      | true =>
        have hres : ClientRorosaga.randomDirection state myPlayer = Direction.south := by
          simp [ClientRorosaga.randomDirection, scanOrder, List.find?, hN, hE, hS]
        rw [hres]
        refine Or.inl ⟨hS, fun d hd => ?_⟩
        cases d <;> simp [scanIdx] at hd <;> first | exact hN | exact hE
      | false =>
        cases hW : ClientRorosaga.validCell state
            (myPlayer.position + getDirectionVector Direction.west) with
        | true =>
          have hres : ClientRorosaga.randomDirection state myPlayer = Direction.west := by
            simp [ClientRorosaga.randomDirection, scanOrder, List.find?, hN, hE, hS, hW]
          rw [hres]
          refine Or.inl ⟨hW, fun d hd => ?_⟩
          cases d <;> simp [scanIdx] at hd <;> first | exact hN | exact hE | exact hS
        | false =>
          have hres : ClientRorosaga.randomDirection state myPlayer = Direction.north := by
            simp [ClientRorosaga.randomDirection, scanOrder, List.find?, hN, hE, hS, hW]
          refine Or.inr ⟨hres, fun d => ?_⟩
          cases d <;> assumption

/-- Witness for C7, at a player boxed on the north and west sides by the
grid corner of the 4-cell corridor. -/
theorem randomDirection_first_valid_witness :
    (ClientRorosaga.validCell corridorState4
        (corridorPlayer.position +
          getDirectionVector (ClientRorosaga.randomDirection corridorState4 corridorPlayer)) = true ∧
      ∀ d : Direction,
        scanIdx d < scanIdx (ClientRorosaga.randomDirection corridorState4 corridorPlayer) →
        ClientRorosaga.validCell corridorState4
          (corridorPlayer.position + getDirectionVector d) = false) ∨
    (ClientRorosaga.randomDirection corridorState4 corridorPlayer = Direction.north ∧
      ∀ d : Direction,
        ClientRorosaga.validCell corridorState4
          (corridorPlayer.position + getDirectionVector d) = false) :=
  randomDirection_first_valid corridorState4 corridorPlayer

/-- C3: `predictOpponentMove` returns the opponent's own position exactly
when all four neighbours are blocked or out-of-grid; otherwise it returns
the first in-grid empty neighbour in scan order. -/
theorem predictOpponentMove_spec (state : GameState) (opponent : Player) :
    (ClientRorosaga.predictOpponentMove state opponent = opponent.position ↔
      ∀ d : Direction,
        ClientRorosaga.validCell state (opponent.position + getDirectionVector d) = false) ∧
    (ClientRorosaga.predictOpponentMove state opponent ≠ opponent.position →
      ClientRorosaga.validCell state (ClientRorosaga.predictOpponentMove state opponent) = true ∧
      ∃ d : Direction,
        ClientRorosaga.predictOpponentMove state opponent =
          opponent.position + getDirectionVector d ∧
        ∀ d' : Direction, scanIdx d' < scanIdx d →
          ClientRorosaga.validCell state (opponent.position + getDirectionVector d') = false) := by
  cases hN : ClientRorosaga.validCell state
      (opponent.position + getDirectionVector Direction.north) with
  | true =>
    have hres : ClientRorosaga.predictOpponentMove state opponent =
        opponent.position + getDirectionVector Direction.north := by
      simp [ClientRorosaga.predictOpponentMove, scanOrder, List.find?, hN]
    rw [hres]
    constructor
    · constructor
      · intro habs
        exact absurd habs (pos_add_dir_ne _ _)
      · intro hall
        have hcontra := hall Direction.north
        simp [hN] at hcontra
    · intro _
      exact ⟨hN, Direction.north, rfl, fun d' hd' => by cases d' <;> simp [scanIdx] at hd'⟩
  | false =>
    cases hE : ClientRorosaga.validCell state
        (opponent.position + getDirectionVector Direction.east) with
    | true =>
      have hres : ClientRorosaga.predictOpponentMove state opponent =
          opponent.position + getDirectionVector Direction.east := by
        simp [ClientRorosaga.predictOpponentMove, scanOrder, List.find?, hN, hE]
      rw [hres]
      constructor
      · constructor
        · intro habs
          exact absurd habs (pos_add_dir_ne _ _)
        · intro hall
          have hcontra := hall Direction.east
          simp [hE] at hcontra
      · intro _
        refine ⟨hE, Direction.east, rfl, fun d' hd' => ?_⟩
        cases d' <;> simp [scanIdx] at hd' <;> exact hN
    | false =>
      cases hS : ClientRorosaga.validCell state
          (opponent.position + getDirectionVector Direction.south) with
      | true =>
        have hres : ClientRorosaga.predictOpponentMove state opponent =
            opponent.position + getDirectionVector Direction.south := by
          simp [ClientRorosaga.predictOpponentMove, scanOrder, List.find?, hN, hE, hS]
        rw [hres]
        constructor
        · constructor
          · intro habs
            exact absurd habs (pos_add_dir_ne _ _)
          · intro hall
            have hcontra := hall Direction.south
            simp [hS] at hcontra
        · intro _
          refine ⟨hS, Direction.south, rfl, fun d' hd' => ?_⟩
          cases d' <;> simp [scanIdx] at hd' <;> first | exact hN | exact hE
      | false =>
        cases hW : ClientRorosaga.validCell state
            (opponent.position + getDirectionVector Direction.west) with
        | true =>
          have hres : ClientRorosaga.predictOpponentMove state opponent =
              opponent.position + getDirectionVector Direction.west := by
            simp [ClientRorosaga.predictOpponentMove, scanOrder, List.find?, hN, hE, hS, hW]
          rw [hres]
          constructor
          · constructor
            · intro habs
              exact absurd habs (pos_add_dir_ne _ _)
            · intro hall
              have hcontra := hall Direction.west
              simp [hW] at hcontra
          · intro _
            refine ⟨hW, Direction.west, rfl, fun d' hd' => ?_⟩
            cases d' <;> simp [scanIdx] at hd' <;> first | exact hN | exact hE | exact hS
        | false =>
          have hres : ClientRorosaga.predictOpponentMove state opponent = opponent.position := by
            simp [ClientRorosaga.predictOpponentMove, scanOrder, List.find?, hN, hE, hS, hW]
          constructor
          · rw [hres]
            exact ⟨fun _ d => by cases d <;> assumption, fun _ => rfl⟩
          · intro hne
            exact absurd hres hne

/-- Witness for C3: for an opponent in the open grid's corner, the
prediction moves to a neighbour and that neighbour is in-grid and empty. -/
theorem predictOpponentMove_spec_witness :
    ClientRorosaga.predictOpponentMove openState ⟨1, "opp", ⟨0, 0⟩⟩ ≠ (⟨0, 0⟩ : Pos) ∧
    ClientRorosaga.validCell openState
      (ClientRorosaga.predictOpponentMove openState ⟨1, "opp", ⟨0, 0⟩⟩) = true :=
  ⟨by decide, ((predictOpponentMove_spec openState ⟨1, "opp", ⟨0, 0⟩⟩).2 (by decide)).1⟩

/-- Unfolding one pop of the flood-fill loop. -/
theorem bfsVisit_succ_cons (state : GameState) (fuel : Nat) (current : Pos)
    (rest visited : List Pos) :
    ClientRorosaga.bfsVisit state (fuel + 1) (current :: rest) visited =
      current :: ClientRorosaga.bfsVisit state fuel
        (ClientRorosaga.expandStep state current scanOrder (visited, rest)).2
        (ClientRorosaga.expandStep state current scanOrder (visited, rest)).1 := rfl

/-- C4: from an in-grid empty origin the flood fill counts between 1 and
20 cells, its popped cells are pairwise distinct (no revisit), and the
origin itself is among them. -/
theorem calculateAvailableSpace_bounds (state : GameState) (origin : Pos)
    (h : ClientRorosaga.validCell state origin = true) :
    1 ≤ ClientRorosaga.calculateAvailableSpace state origin ∧
    ClientRorosaga.calculateAvailableSpace state origin ≤ 20 ∧
    (ClientRorosaga.bfsVisit state 20 [origin] [origin]).Nodup ∧
    origin ∈ ClientRorosaga.bfsVisit state 20 [origin] [origin] := by
  refine ⟨?_, bfsVisit_length_le state 20 _ _,
    bfsVisit_nodup state 20 _ _ (by simp) (by simp), ?_⟩
  · have hge := bfsVisit_length_ge state 20 [origin] [origin]
    unfold ClientRorosaga.calculateAvailableSpace
    simp only [List.length_singleton] at hge
    omega
  · rw [show (20 : Nat) = 19 + 1 from rfl, bfsVisit_succ_cons]
    exact List.mem_cons_self _ _

/-- Witness for C4, at the centre of the open grid. -/
theorem calculateAvailableSpace_bounds_witness :
    1 ≤ ClientRorosaga.calculateAvailableSpace openState ⟨5, 5⟩ ∧
    ClientRorosaga.calculateAvailableSpace openState ⟨5, 5⟩ ≤ 20 :=
  ⟨(calculateAvailableSpace_bounds openState ⟨5, 5⟩ (by decide)).1,
   (calculateAvailableSpace_bounds openState ⟨5, 5⟩ (by decide)).2.1⟩

/-- C10: `calculateAvailableSpace` never checks the origin itself: for
every origin, occupied or out-of-grid included, the count is at least 1,
and the fill still explores the origin's in-grid empty neighbours, so the
count is at least 1 plus their number. -/
theorem calculateAvailableSpace_ignores_origin (state : GameState) (origin : Pos) :
    1 ≤ ClientRorosaga.calculateAvailableSpace state origin ∧
    1 + (validNeighbors state origin).length ≤
      ClientRorosaga.calculateAvailableSpace state origin := by
  have hfresh : ∀ d ∈ scanOrder, (origin + getDirectionVector d) ∉ [origin] := by
    intro d _
    simp [pos_add_dir_ne origin d]
  have hq : (ClientRorosaga.expandStep state origin scanOrder ([origin], [])).2 =
      validNeighbors state origin := by
    have hs := expandStep_fresh state origin scanOrder [origin] [] scanOrder_nodup hfresh
    rw [hs]
    simp [validNeighbors]
  constructor
  · have hge := bfsVisit_length_ge state 20 [origin] [origin]
    unfold ClientRorosaga.calculateAvailableSpace
    simp only [List.length_singleton] at hge
    omega
  · have hge := bfsVisit_length_ge state 19
      (ClientRorosaga.expandStep state origin scanOrder ([origin], [])).2
      (ClientRorosaga.expandStep state origin scanOrder ([origin], [])).1
    rw [hq] at hge
    have hlen : (validNeighbors state origin).length ≤ 4 := by
      have hmap := List.length_filter_le
        (fun n => ClientRorosaga.validCell state n)
        (scanOrder.map (fun d => origin + getDirectionVector d))
      simpa [validNeighbors, scanOrder] using hmap
    unfold ClientRorosaga.calculateAvailableSpace
    rw [show (20 : Nat) = 19 + 1 from rfl, bfsVisit_succ_cons, hq]
    simp only [List.length_cons]
    omega

/-- Counterexample to C2: in an open grid with the bot at (5,5) and the
target at (6,4), north and east tie on a total score of 19 at the front of
the candidate list (north first-seen), yet the list that places east
before north is also a valid `std::sort` output — the C++ standard does
not make `std::sort` stable, so the returned tied candidate is not forced
to be the first in scan order. -/
theorem sort_tie_order_counterexample :
    IsSortOutput (ClientRorosaga.rankedMoves openState openPlayer ⟨6, 4⟩ ⟨20, 20⟩)
      [(Direction.east, 19), (Direction.north, 19),
        (Direction.south, 17), (Direction.west, 17)] ∧
    ClientRorosaga.rankedMoves openState openPlayer ⟨6, 4⟩ ⟨20, 20⟩ =
      [(Direction.north, 19), (Direction.east, 19),
        (Direction.south, 17), (Direction.west, 17)] ∧
    Direction.east ≠ Direction.north :=
  ⟨⟨by decide, by decide⟩, by decide, by decide⟩

/-- C2 as amended: the front of any valid `std::sort` output of the
candidate list — the element `decideBestMove` returns — is a genuine
candidate, legal, and of maximal total score; which tied maximal candidate
comes first is not determined by the source. -/
theorem sort_output_front_max (state : GameState) (myPlayer : Player)
    (target predictedOpponentPos : Pos) (output : List (Direction × Int)) (m : Direction × Int)
    (hout : IsSortOutput (ClientRorosaga.rankedMoves state myPlayer target predictedOpponentPos)
      output)
    (hm : output.head? = some m) :
    m ∈ ClientRorosaga.rankedMoves state myPlayer target predictedOpponentPos ∧
    ClientRorosaga.validCell state (myPlayer.position + getDirectionVector m.1) = true ∧
    ∀ y ∈ ClientRorosaga.rankedMoves state myPlayer target predictedOpponentPos, y.2 ≤ m.2 := by
  obtain ⟨hperm, hsorted⟩ := hout
  cases output with
  | nil => cases hm
  | cons a rest =>
    have hm' : m = a := by
      simpa using hm.symm
    subst hm'
    have hmem : m ∈ ClientRorosaga.rankedMoves state myPlayer target predictedOpponentPos :=
      hperm.symm.subset (List.mem_cons_self _ _)
    refine ⟨hmem, rankedMoves_mem_valid state myPlayer target predictedOpponentPos hmem, ?_⟩
    intro y hy
    rcases List.mem_cons.mp (hperm.subset hy) with rfl | hy'
    · exact le_refl _
    · exact List.rel_of_pairwise_cons hsorted hy'

/-- Witness for the amended C2: east at the front of the alternative sort
output is a maximal, legal candidate. -/
theorem sort_output_front_max_witness :
    (Direction.east, (19 : Int)) ∈
      ClientRorosaga.rankedMoves openState openPlayer ⟨6, 4⟩ ⟨20, 20⟩ ∧
    ClientRorosaga.validCell openState
      (openPlayer.position + getDirectionVector Direction.east) = true ∧
    ∀ y ∈ ClientRorosaga.rankedMoves openState openPlayer ⟨6, 4⟩ ⟨20, 20⟩,
      y.2 ≤ (19 : Int) :=
  sort_output_front_max openState openPlayer ⟨6, 4⟩ ⟨20, 20⟩
    [(Direction.east, 19), (Direction.north, 19), (Direction.south, 17), (Direction.west, 17)]
    (Direction.east, 19) ⟨by decide, by decide⟩ rfl
